import Mathlib

/-!
Shallow embedding of the tv-railway-bridge webhook service (main.py and
main_s1.py): a TradingView-to-Bybit signal bridge.  Python floats are
modelled as rationals, the Bybit SDK as an abstract world record, and the
side-effecting handler as a state-passing function that also returns the
list of exchange calls it issued, in order.
-/

namespace TvBridge

/-- Errors raised as `HTTPException` in the source.  Each constructor is one
raise site and carries exactly the values interpolated into that site's
detail message. -/
inductive HErr where
  | badToken
  | bybitNotConfigured
  | symbolNotFound (symbol : String)
  | cannotFetch (equity price : ℚ)
  | qtyTooSmall (raw step rounded minQty : ℚ)
  deriving DecidableEq

/-- HTTP status code of each raise site. -/
def HErr.status : HErr → ℕ
  | .badToken => 401
  | .bybitNotConfigured => 500
  | .symbolNotFound _ => 400
  | .cannotFetch _ _ => 400
  | .qtyTooSmall _ _ _ _ => 400

/-- Which rational values are interpolated into the error's detail message
(its diagnostic payload). -/
def HErr.mentionsQ : HErr → ℚ → Bool
  | .badToken, _ => false
  | .bybitNotConfigured, _ => false
  | .symbolNotFound _, _ => false
  | .cannotFetch e p, v => v == e || v == p
  | .qtyTooSmall r s q m, v => v == r || v == s || v == q || v == m

/-- Process-wide configuration read from the environment at startup:
`TV_TOKEN`, `LEVERAGE`, `RISK_FRACTION`. -/
structure Config where
  tvToken : String
  leverage : ℤ
  riskFraction : ℚ

/-- Lot-size rules as reported by `get_instruments_info` for a symbol
(`minOrderQty`, `maxOrderQty`, `qtyStep`, the latter possibly 0). -/
structure Lot where
  minQty : ℚ
  maxQty : ℚ
  step : ℚ
  deriving DecidableEq

/-- The exchange as seen through the SDK during one request: whether the
client is configured, and the values the read endpoints would return. -/
structure World where
  configured : Bool
  equity : ℚ
  price : String → ℚ
  position : String → ℚ
  hasInstrument : String → Bool
  lot : String → Lot

/-- `math.floor(qty / step) * step` (source: `round_down_to_step`). -/
def round_down_to_step (qty step : ℚ) : ℚ :=
  ⌊qty / step⌋ * step

/-- Source: `bybit_get_qty_rules`.  Looks up the instrument's lot rules,
fails with a 400 if the symbol is unknown, and defaults a non-positive
`qtyStep` to 1. -/
def bybit_get_qty_rules (w : World) (symbol : String) : Except HErr (ℚ × ℚ × ℚ) :=
  if w.hasInstrument symbol then
    let l := w.lot symbol
    .ok (l.minQty, l.maxQty, if l.step ≤ 0 then 1 else l.step)
  else
    .error (.symbolNotFound symbol)

/-- One exchange-SDK call, recorded in issue order. -/
inductive Side where
  | Buy
  | Sell
  deriving DecidableEq

/-- A market order as handed to `place_order`: the rational quantity given
to `place_market` together with the wire string `fmt_number qty`. -/
structure Order where
  symbol : String
  side : Side
  qty : ℚ
  qtyStr : String
  reduceOnly : Bool
  deriving DecidableEq

/-- The exchange calls the handler can issue (every Bybit SDK round-trip in
the source). -/
inductive Call where
  | setMarginMode
  | setLeverage (symbol : String) (lev : ℤ)
  | getWalletBalance
  | getTickers (symbol : String)
  | getPositions (symbol : String)
  | getInstrumentsInfo (symbol : String)
  | placeOrder (o : Order)
  deriving DecidableEq

/-- Projection of a call onto the order it places, if any. -/
def Call.orderOf : Call → Option Order
  | .placeOrder o => some o
  | _ => none

/-- The orders contained in a call trace, in order. -/
def ordersOf (calls : List Call) : List Order :=
  calls.filterMap Call.orderOf

/-- Source: `calc_qty`.  Fetches equity and last price, rejects non-positive
values, computes `notional = equity * RISK_FRACTION * LEVERAGE` and
`raw_qty = notional / price`, fetches the lot rules, rounds down to the
step, clamps to `max_qty` when positive, and rejects quantities below
`min_qty`.  Returns the result together with the exchange calls issued. -/
def calc_qty (cfg : Config) (w : World) (symbol : String) : Except HErr ℚ × List Call :=
  let equity := w.equity
  let price := w.price symbol
  let calls0 : List Call := [.getWalletBalance, .getTickers symbol]
  if equity ≤ 0 ∨ price ≤ 0 then
    (.error (.cannotFetch equity price), calls0)
  else
    let notional := equity * cfg.riskFraction * (cfg.leverage : ℚ)
    let raw_qty := notional / price
    match bybit_get_qty_rules w symbol with
    | .error e => (.error e, calls0 ++ [.getInstrumentsInfo symbol])
    | .ok (min_qty, max_qty, step) =>
      let qty := round_down_to_step raw_qty step
      let qty := if max_qty > 0 then min qty max_qty else qty
      if qty < min_qty then
        (.error (.qtyTooSmall raw_qty step qty min_qty), calls0 ++ [.getInstrumentsInfo symbol])
      else
        (.ok qty, calls0 ++ [.getInstrumentsInfo symbol])

/-- Python `str.strip()` on a character list: drop leading and trailing
whitespace. -/
def pyStrip (l : List Char) : List Char :=
  ((l.dropWhile Char.isWhitespace).reverse.dropWhile Char.isWhitespace).reverse

/-- Python `str.upper()` on a character list. -/
def pyUpperL (l : List Char) : List Char :=
  l.map Char.toUpper

/-- Python `str.upper()` on a string. -/
def pyUpper (s : String) : String :=
  ⟨pyUpperL s.data⟩

/-- The suffix-stripping loop of `clean_symbol`: for each of `".P"`,
`".PERP"`, `"PERP"` in turn, drop it if the current string ends with it. -/
def dropSuffixes (l : List Char) : List Char :=
  let s1 := if ['.', 'P'].isSuffixOf l then l.take (l.length - 2) else l
  let s2 := if ['.', 'P', 'E', 'R', 'P'].isSuffixOf s1 then s1.take (s1.length - 5) else s1
  if ['P', 'E', 'R', 'P'].isSuffixOf s2 then s2.take (s2.length - 4) else s2

/-- Source: `clean_symbol`.  Strips and uppercases the raw symbol, then runs
the suffix-stripping loop. -/
def clean_symbol (sym : String) : String :=
  ⟨dropSuffixes (pyUpperL (pyStrip sym.data))⟩

/-- The character for decimal digit `d % 10`. -/
def digitChar (d : ℕ) : Char :=
  Char.ofNat (48 + d % 10)

/-- Little-endian decimal digits of `n` as characters, with explicit
structural fuel (enough fuel, e.g. `n` itself, yields all digits). -/
def natCharsAux : ℕ → ℕ → List Char
  | 0, _ => []
  | fuel + 1, n => if n = 0 then [] else digitChar (n % 10) :: natCharsAux fuel (n / 10)

/-- The integer-part digit string printed by `"%.10f"`: the decimal digits
of `n`, big-endian, with `0` printed as `"0"`. -/
def intChars (n : ℕ) : List Char :=
  if n = 0 then ['0'] else (natCharsAux n n).reverse

/-- The ten fractional digits printed by `"%.10f"` for a fractional part
`f < 10^10`: digit `i` is `(f / 10 ^ (9 - i)) % 10`. -/
def fracChars (f : ℕ) : List Char :=
  (List.range 10).map (fun i => digitChar ((f / 10 ^ (9 - i)) % 10))

/-- Python `str.rstrip(c)` for a one-character strip set. -/
def rstrip (a : Char) (l : List Char) : List Char :=
  (l.reverse.dropWhile (· == a)).reverse

/-- Source: `fmt_number`.  Models `f"{x:.10f}".rstrip("0").rstrip(".")` with
the empty-string guard, for the non-negative quantities the service
formats; `"%.10f"` is modelled as rounding `x` to the nearest multiple of
`10 ^ (-10)` and printing the integer part and exactly ten fractional
digits. -/
def fmt_number (x : ℚ) : String :=
  let n : ℕ := (⌊x * 10 ^ 10 + 1 / 2⌋).toNat
  let s0 : List Char := intChars (n / 10 ^ 10) ++ '.' :: fracChars (n % 10 ^ 10)
  let s : List Char := rstrip '.' (rstrip '0' s0)
  if s.isEmpty then "0" else ⟨s⟩

/-- An inbound webhook payload: the three fields the handler reads, each
possibly absent from the JSON object. -/
structure Payload where
  token : Option String
  symbol : Option String
  action : Option String
  deriving DecidableEq

/-- Source: `require_token`.  `token = str(data.get("token", ""))`; raises
401 when `TV_TOKEN` is non-empty and the token differs. -/
def require_token (tvToken : String) (data : Payload) : Except HErr Unit :=
  let token := data.token.getD ""
  if tvToken ≠ "" ∧ token ≠ tvToken then .error .badToken else .ok ()

/-- Value returned by the Bybit order layer as the source sees it: either
the "nothing to close" note dict of `close_full_position`, or the response
to a `place_order` call (modelled by the order itself). -/
inductive BybitResult where
  | noPosition
  | orderPlaced (o : Order)
  deriving DecidableEq

/-- The JSON body returned to the HTTP caller on success. -/
inductive Resp where
  | receiverOnly
  | okBybit (r : BybitResult)
  | okIgnored
  | okPlain
  deriving DecidableEq

/-- The process-wide `last_result` value set by the handler. -/
inductive LastResult where
  | receiverNote
  | openResult (action symbol : String) (qty : ℚ) (bybit : BybitResult)
  | closeResult (action symbol : String) (bybit : BybitResult)
  | ignored (reason : String)
  deriving DecidableEq

/-- The process-wide mutable state of main.py: `last_payload` and
`last_result`. -/
structure SState where
  last_payload : Option Payload
  last_result : Option LastResult
  deriving DecidableEq

/-- Source: `place_market`.  Builds the market order (quantity passed to
the wire as `fmt_number qty`) and records the `place_order` call. -/
def place_market (symbol : String) (side : Side) (qty : ℚ) (reduce_only : Bool) :
    Order × List Call :=
  let o : Order := ⟨symbol, side, qty, fmt_number qty, reduce_only⟩
  (o, [.placeOrder o])

/-- Source: `close_full_position`.  Reads the signed position size; returns
the "no position to close" note at 0, otherwise places one reduce-only
market order of the absolute size on the opposite side. -/
def close_full_position (w : World) (symbol : String) : BybitResult × List Call :=
  let pos := w.position symbol
  if pos = 0 then
    (.noPosition, [.getPositions symbol])
  else
    let qty := |pos|
    if pos > 0 then
      let (o, c) := place_market symbol .Sell qty true
      (.orderPlaced o, .getPositions symbol :: c)
    else
      let (o, c) := place_market symbol .Buy qty true
      (.orderPlaced o, .getPositions symbol :: c)

/-- The action dispatch of `handle_webhook` (lines 231-264): margin-mode
and leverage configuration, then the LONG / SHORT / close-family / ignored
branches.  Returns the HTTP result, the `last_result` assignment (none when
an exception propagates and the old value is kept), and the exchange calls
issued, in order. -/
def handle_core (cfg : Config) (w : World) (symbol action : String) :
    Except HErr Resp × Option LastResult × List Call :=
  let cfgCalls : List Call := [.setMarginMode, .setLeverage symbol cfg.leverage]
  if action = "LONG" then
    let pos := w.position symbol
    let closeCalls := if pos < 0 then (close_full_position w symbol).2 else []
    let r := calc_qty cfg w symbol
    match r.1 with
    | .error e => (.error e, none, cfgCalls ++ .getPositions symbol :: closeCalls ++ r.2)
    | .ok qty =>
      let (o, oc) := place_market symbol .Buy qty false
      (.ok (.okBybit (.orderPlaced o)), some (.openResult "LONG" symbol qty (.orderPlaced o)),
        cfgCalls ++ .getPositions symbol :: closeCalls ++ r.2 ++ oc)
  else if action = "SHORT" then
    let pos := w.position symbol
    let closeCalls := if pos > 0 then (close_full_position w symbol).2 else []
    let r := calc_qty cfg w symbol
    match r.1 with
    | .error e => (.error e, none, cfgCalls ++ .getPositions symbol :: closeCalls ++ r.2)
    | .ok qty =>
      let (o, oc) := place_market symbol .Sell qty false
      (.ok (.okBybit (.orderPlaced o)), some (.openResult "SHORT" symbol qty (.orderPlaced o)),
        cfgCalls ++ .getPositions symbol :: closeCalls ++ r.2 ++ oc)
  else if action ∈ (["CLOSE", "CLOSE_LONG", "STOP_LONG", "STOP_SHORT", "CLOSE_SHORT"] : List String) then
    let (res, cc) := close_full_position w symbol
    (.ok (.okBybit res), some (.closeResult action symbol res), cfgCalls ++ cc)
  else
    (.ok .okIgnored, some (.ignored ("unknown action: " ++ action)), cfgCalls)

/-- Source: `handle_webhook` (main.py).  Authenticates, stores the payload,
short-circuits to receiver-only mode when the Bybit client is absent,
normalizes the symbol (defaulting an absent field to `"APTUSDT"`),
uppercases the action, and dispatches.  Returns the HTTP result, the new
process state, and the exchange calls issued, in order. -/
def handle_webhook (cfg : Config) (w : World) (st : SState) (data : Payload) :
    Except HErr Resp × SState × List Call :=
  match require_token cfg.tvToken data with
  | .error e => (.error e, st, [])
  | .ok _ =>
    let st1 : SState := { st with last_payload := some data }
    if w.configured = false then
      (.ok .receiverOnly, { st1 with last_result := some .receiverNote }, [])
    else
      let symbol := clean_symbol (data.symbol.getD "APTUSDT")
      let action := pyUpper (data.action.getD "")
      match handle_core cfg w symbol action with
      | (r, lr, calls) =>
        (r, { st1 with last_result := match lr with | some x => some x | none => st1.last_result },
          calls)

/-- Source: `handle_webhook` (main_s1.py).  Receiver-only service: the same
token check, then the payload is stored and `{"ok": True}` returned. -/
def handle_webhook_s1 (tvToken : String) (st : Option Payload) (data : Payload) :
    Except HErr Resp × Option Payload :=
  let token := data.token.getD ""
  if tvToken ≠ "" ∧ token ≠ tvToken then (.error .badToken, st) else (.ok .okPlain, some data)

/-- Example configuration: empty secret, `LEVERAGE = 3`,
`RISK_FRACTION = 0.5` (the source defaults). -/
def cfgEx : Config := ⟨"", 3, 1/2⟩

/-- Example world matching the spec's sizing example: equity 1000, price
100, flat position, lot rule `minQty = 0.001`, `maxQty = 1000`,
`step = 0.001`. -/
def wEx : World := ⟨true, 1000, fun _ => 100, fun _ => 0, fun _ => true, fun _ => ⟨1/1000, 1000, 1/1000⟩⟩

/-- Example world with a short position of size 5 (signed -5) and otherwise
the same market data as `wEx`. -/
def wNeg : World := ⟨true, 1000, fun _ => 100, fun _ => -5, fun _ => true, fun _ => ⟨1/1000, 1000, 1/1000⟩⟩

deriving instance DecidableEq for Except

/-- Closed form of `calc_qty` on the happy path: positive equity and price,
known instrument, positive step. -/
lemma calc_qty_formula (cfg : Config) (w : World) (symbol : String)
    (he : 0 < w.equity) (hp : 0 < w.price symbol)
    (hin : w.hasInstrument symbol = true) (hs : 0 < (w.lot symbol).step) :
    (calc_qty cfg w symbol).1 =
      (let raw := w.equity * cfg.riskFraction * (cfg.leverage : ℚ) / w.price symbol
       let q0 := ⌊raw / (w.lot symbol).step⌋ * (w.lot symbol).step
       let q := if 0 < (w.lot symbol).maxQty then min q0 (w.lot symbol).maxQty else q0
       if q < (w.lot symbol).minQty then
         Except.error (HErr.qtyTooSmall raw (w.lot symbol).step q (w.lot symbol).minQty)
       else Except.ok q) := by
  have hcond : ¬(w.equity ≤ 0 ∨ w.price symbol ≤ 0) := by
    push_neg
    exact ⟨he, hp⟩
  simp only [calc_qty, bybit_get_qty_rules, hin, if_true, if_neg hcond, round_down_to_step,
    if_neg (not_le.mpr hs)]
  split_ifs <;> rfl

/-- On non-positive equity or price, `calc_qty` fails before reading lot
rules. -/
lemma calc_qty_cannot_fetch (cfg : Config) (w : World) (symbol : String)
    (h : w.equity ≤ 0 ∨ w.price symbol ≤ 0) :
    (calc_qty cfg w symbol).1 = Except.error (HErr.cannotFetch w.equity (w.price symbol)) := by
  simp only [calc_qty, if_pos h]

/-- C1: for positive equity and price and a lot rule with positive step,
the computed quantity is `floor((equity * riskFraction * leverage / price)
/ step) * step`, clamped down to `maxQty` when `maxQty > 0`, with a sizing
error when equity or price is non-positive or the clamped quantity is
below `minQty`; in particular equity 1000, riskFraction 0.5, leverage 3,
price 100, step 0.001 gives 15, and rounding 15 down to step 7 gives 14. -/
theorem calc_qty_spec (cfg : Config) (w : World) (symbol : String)
    (he : 0 < w.equity) (hp : 0 < w.price symbol)
    (hin : w.hasInstrument symbol = true) (hs : 0 < (w.lot symbol).step) :
    ((calc_qty cfg w symbol).1 =
      (let raw := w.equity * cfg.riskFraction * (cfg.leverage : ℚ) / w.price symbol
       let q0 := ⌊raw / (w.lot symbol).step⌋ * (w.lot symbol).step
       let q := if 0 < (w.lot symbol).maxQty then min q0 (w.lot symbol).maxQty else q0
       if q < (w.lot symbol).minQty then
         Except.error (HErr.qtyTooSmall raw (w.lot symbol).step q (w.lot symbol).minQty)
       else Except.ok q))
    ∧ (∀ (cfg' : Config) (w' : World) (sym' : String),
        w'.equity ≤ 0 ∨ w'.price sym' ≤ 0 →
        (calc_qty cfg' w' sym').1 = Except.error (HErr.cannotFetch w'.equity (w'.price sym')))
    ∧ round_down_to_step 15 7 = 14
    ∧ (calc_qty cfgEx wEx "APTUSDT").1 = Except.ok 15 := by
  refine ⟨calc_qty_formula cfg w symbol he hp hin hs, calc_qty_cannot_fetch, ?_, ?_⟩
  · norm_num [round_down_to_step]
  · norm_num [calc_qty, bybit_get_qty_rules, round_down_to_step, cfgEx, wEx]

/-- Witness for `calc_qty_spec` at the spec's example inputs, plus the
equity-zero failure. -/
theorem calc_qty_spec_witness :
    (calc_qty cfgEx wEx "APTUSDT").1 = Except.ok 15 ∧
    (calc_qty cfgEx ⟨true, 0, fun _ => 100, fun _ => 0, fun _ => true, fun _ => ⟨1/1000, 1000, 1/1000⟩⟩
      "APTUSDT").1 = Except.error (HErr.cannotFetch 0 100) :=
  ⟨(calc_qty_spec cfgEx wEx "APTUSDT" (by norm_num [wEx]) (by norm_num [wEx]) rfl
      (by norm_num [wEx])).2.2.2,
   (calc_qty_spec cfgEx wEx "APTUSDT" (by norm_num [wEx]) (by norm_num [wEx]) rfl
      (by norm_num [wEx])).2.1 cfgEx _ "APTUSDT" (Or.inl le_rfl)⟩

/-- C8 counterexample: with equity 100, riskFraction 0.5, leverage 3, price
100 and lot rule (minQty 2, maxQty 0, step 1), sizing fails with a
below-minimum error whose diagnostic payload is rawQty 1.5, step 1,
rounded 1, minQty 2 — the notional 150 appears nowhere in it. -/
theorem sizing_error_diag_cex :
    (calc_qty ⟨"", 3, 1/2⟩ ⟨true, 100, fun _ => 100, fun _ => 0, fun _ => true, fun _ => ⟨2, 0, 1⟩⟩
      "S").1 = Except.error (HErr.qtyTooSmall (3/2) 1 1 2)
    ∧ (100 : ℚ) * (1/2) * ((3 : ℤ) : ℚ) = 150
    ∧ HErr.mentionsQ (HErr.qtyTooSmall (3/2) 1 1 2) 150 = false := by
  refine ⟨?_, by norm_num, ?_⟩
  · norm_num [calc_qty, bybit_get_qty_rules, round_down_to_step]
  · simp only [HErr.mentionsQ, Bool.or_eq_false_iff, beq_eq_false_iff_ne, ne_eq]
    norm_num

/-- C8 (amended): when sizing fails because the rounded (and clamped)
quantity is below the lot minimum, the error carries rawQty, step, the
rounded quantity and minQty — but not the notional itself. -/
theorem sizing_error_diag (cfg : Config) (w : World) (symbol : String)
    (he : 0 < w.equity) (hp : 0 < w.price symbol)
    (hin : w.hasInstrument symbol = true) (hs : 0 < (w.lot symbol).step)
    (q : ℚ)
    (hq : q = (let raw := w.equity * cfg.riskFraction * (cfg.leverage : ℚ) / w.price symbol
               let q0 := ⌊raw / (w.lot symbol).step⌋ * (w.lot symbol).step
               if 0 < (w.lot symbol).maxQty then min q0 (w.lot symbol).maxQty else q0))
    (hlow : q < (w.lot symbol).minQty) :
    (calc_qty cfg w symbol).1 =
      Except.error (HErr.qtyTooSmall
        (w.equity * cfg.riskFraction * (cfg.leverage : ℚ) / w.price symbol)
        (w.lot symbol).step q (w.lot symbol).minQty)
    ∧ HErr.mentionsQ (HErr.qtyTooSmall
        (w.equity * cfg.riskFraction * (cfg.leverage : ℚ) / w.price symbol)
        (w.lot symbol).step q (w.lot symbol).minQty)
        (w.equity * cfg.riskFraction * (cfg.leverage : ℚ) / w.price symbol) = true
    ∧ HErr.mentionsQ (HErr.qtyTooSmall
        (w.equity * cfg.riskFraction * (cfg.leverage : ℚ) / w.price symbol)
        (w.lot symbol).step q (w.lot symbol).minQty) (w.lot symbol).step = true
    ∧ HErr.mentionsQ (HErr.qtyTooSmall
        (w.equity * cfg.riskFraction * (cfg.leverage : ℚ) / w.price symbol)
        (w.lot symbol).step q (w.lot symbol).minQty) (w.lot symbol).minQty = true := by
  refine ⟨?_, by simp [HErr.mentionsQ], by simp [HErr.mentionsQ], by simp [HErr.mentionsQ]⟩
  rw [calc_qty_formula cfg w symbol he hp hin hs]
  dsimp only
  dsimp only at hq
  rw [← hq, if_pos hlow]

/-- Witness for `sizing_error_diag` at the counterexample's inputs. -/
theorem sizing_error_diag_witness :
    (calc_qty ⟨"", 3, 1/2⟩ ⟨true, 100, fun _ => 100, fun _ => 0, fun _ => true, fun _ => ⟨2, 0, 1⟩⟩
      "S").1 = Except.error (HErr.qtyTooSmall (3/2) 1 1 2) := by
  have h := (sizing_error_diag ⟨"", 3, 1/2⟩
    ⟨true, 100, fun _ => 100, fun _ => 0, fun _ => true, fun _ => ⟨2, 0, 1⟩⟩ "S"
    (by norm_num) (by norm_num) rfl (by norm_num) 1 (by norm_num) (by norm_num)).1
  rw [h]
  norm_num [Except.error.injEq, HErr.qtyTooSmall.injEq]

lemma char_toNat_ofNat (n : ℕ) (h : n < 0xd800) : (Char.ofNat n).toNat = n := by
  unfold Char.ofNat
  rw [dif_pos (Or.inl h)]
  rfl

lemma toUpper_idem (c : Char) : c.toUpper.toUpper = c.toUpper := by
  unfold Char.toUpper
  by_cases h : c.toNat ≥ 97 ∧ c.toNat ≤ 122
  · rw [if_pos h]
    have h2 : (Char.ofNat (c.toNat - 32)).toNat = c.toNat - 32 := char_toNat_ofNat _ (by omega)
    rw [if_neg (by rw [h2]; omega)]
  · rw [if_neg h, if_neg h]

lemma pyUpperL_idem (l : List Char) : pyUpperL (pyUpperL l) = pyUpperL l := by
  unfold pyUpperL
  rw [List.map_map]
  exact List.map_congr_left fun c _ => toUpper_idem c

lemma dropSuffixes_front (l : List Char) : dropSuffixes l <+: l := by
  unfold dropSuffixes
  dsimp only
  split_ifs <;> first
    | exact List.take_prefix _ _
    | exact (List.take_prefix _ _).trans (List.take_prefix _ _)
    | exact ((List.take_prefix _ _).trans (List.take_prefix _ _)).trans (List.take_prefix _ _)
    | exact List.prefix_refl _

lemma prefix_upper_inv {l m : List Char} (hp : l <+: m) (hm : pyUpperL m = m) :
    pyUpperL l = l := by
  obtain ⟨t, rfl⟩ := hp
  unfold pyUpperL at hm ⊢
  rw [List.map_append] at hm
  exact (List.append_inj hm (by simp)).1

lemma clean_symbol_upper_inv (s : String) :
    pyUpperL (clean_symbol s).data = (clean_symbol s).data := by
  show pyUpperL (dropSuffixes (pyUpperL (pyStrip s.data))) = dropSuffixes (pyUpperL (pyStrip s.data))
  exact prefix_upper_inv (dropSuffixes_front _) (pyUpperL_idem _)

lemma dropSuffixes_noop (l : List Char)
    (h1 : ¬ ['.', 'P'].isSuffixOf l) (h2 : ¬ ['.', 'P', 'E', 'R', 'P'].isSuffixOf l)
    (h3 : ¬ ['P', 'E', 'R', 'P'].isSuffixOf l) : dropSuffixes l = l := by
  unfold dropSuffixes
  dsimp only
  rw [if_neg h1, if_neg h2, if_neg h3]

/-- C7 counterexample: `clean_symbol` is not idempotent.  On `"X.P.P"` one
pass strips only the final `".P"` giving `"X.P"`, and a second pass strips
again, giving `"X"`. -/
theorem clean_symbol_idem_cex :
    clean_symbol "X.P.P" = "X.P" ∧ clean_symbol "X.P" = "X"
    ∧ clean_symbol (clean_symbol "X.P.P") ≠ clean_symbol "X.P.P" := by
  refine ⟨by decide, by decide, ?_⟩
  decide

/-- C7 (amended): `clean_symbol` is idempotent on every input whose
normalization is already canonical — whitespace-stripped and not ending in
`".P"`, `".PERP"` or `"PERP"` (uppercase-invariance of the output holds
unconditionally); in general a second pass can strip further (see the
counterexample).  The concrete examples hold: `"APTUSDT.P"`,
`"APTUSDTPERP"` and `"APTUSDT.PERP"` normalize to `"APTUSDT"`, and
`"BTCUSDT"` is unchanged. -/
theorem clean_symbol_idem (s : String)
    (hstrip : pyStrip (clean_symbol s).data = (clean_symbol s).data)
    (h1 : ¬ ['.', 'P'].isSuffixOf (clean_symbol s).data)
    (h2 : ¬ ['.', 'P', 'E', 'R', 'P'].isSuffixOf (clean_symbol s).data)
    (h3 : ¬ ['P', 'E', 'R', 'P'].isSuffixOf (clean_symbol s).data) :
    clean_symbol (clean_symbol s) = clean_symbol s
    ∧ clean_symbol "APTUSDT.P" = "APTUSDT"
    ∧ clean_symbol "APTUSDTPERP" = "APTUSDT"
    ∧ clean_symbol "APTUSDT.PERP" = "APTUSDT"
    ∧ clean_symbol "BTCUSDT" = "BTCUSDT" := by
  refine ⟨?_, by decide, by decide, by decide, by decide⟩
  show (⟨dropSuffixes (pyUpperL (pyStrip (clean_symbol s).data))⟩ : String) = clean_symbol s
  rw [hstrip, clean_symbol_upper_inv, dropSuffixes_noop _ h1 h2 h3]

/-- Witness for `clean_symbol_idem` at the canonical input
`"APTUSDT.P"`. -/
theorem clean_symbol_idem_witness :
    clean_symbol (clean_symbol "APTUSDT.P") = clean_symbol "APTUSDT.P"
    ∧ clean_symbol "APTUSDT.P" = "APTUSDT" :=
  ⟨(clean_symbol_idem "APTUSDT.P" (by decide) (by decide) (by decide) (by decide)).1,
   (clean_symbol_idem "APTUSDT.P" (by decide) (by decide) (by decide) (by decide)).2.1⟩


lemma digitChar_isDigit (d : ℕ) : (digitChar d).isDigit = true := by
  have h : (digitChar d).toNat = 48 + d % 10 := char_toNat_ofNat _ (by omega)
  have h' : (digitChar d).val.toBitVec.toNat = 48 + d % 10 := h
  have h48 : (48 : UInt32).toBitVec.toNat = 48 := rfl
  have h57 : (57 : UInt32).toBitVec.toNat = 57 := rfl
  simp only [Char.isDigit, Bool.and_eq_true, decide_eq_true_iff]
  constructor
  · show (48 : UInt32) ≤ (digitChar d).val
    rw [UInt32.le_def, BitVec.le_def]
    omega
  · rw [UInt32.le_def, BitVec.le_def]
    omega

lemma isDigit_ne_dot {c : Char} (h : c.isDigit = true) : c ≠ '.' := by
  intro hc
  rw [hc] at h
  exact absurd h (by decide)

lemma isDigit_ne_zero_of_beq {c : Char} (h : (c == '0') = false) : c ≠ '0' :=
  beq_eq_false_iff_ne.mp h

lemma natCharsAux_mem {fuel n : ℕ} {c : Char} (hc : c ∈ natCharsAux fuel n) :
    ∃ d, c = digitChar d := by
  induction fuel generalizing n with
  | zero => simp [natCharsAux] at hc
  | succ fuel ih =>
    unfold natCharsAux at hc
    by_cases h : n = 0
    · simp [h] at hc
    · rw [if_neg h] at hc
      rcases List.mem_cons.mp hc with h1 | h1
      · exact ⟨n % 10, h1⟩
      · exact ih h1

lemma intChars_digit {n : ℕ} {c : Char} (hc : c ∈ intChars n) : c.isDigit = true := by
  unfold intChars at hc
  by_cases h : n = 0
  · rw [if_pos h] at hc
    simp at hc
    rw [hc]
    decide
  · rw [if_neg h, List.mem_reverse] at hc
    obtain ⟨d, rfl⟩ := natCharsAux_mem hc
    exact digitChar_isDigit d

lemma intChars_ne_nil (n : ℕ) : intChars n ≠ [] := by
  unfold intChars
  by_cases h : n = 0
  · simp [h]
  · rw [if_neg h]
    simp only [ne_eq, List.reverse_eq_nil_iff]
    cases n with
    | zero => exact absurd rfl h
    | succ m =>
      unfold natCharsAux
      rw [if_neg h]
      simp

lemma fracChars_digit {f : ℕ} {c : Char} (hc : c ∈ fracChars f) : c.isDigit = true := by
  unfold fracChars at hc
  rw [List.mem_map] at hc
  obtain ⟨i, _, rfl⟩ := hc
  exact digitChar_isDigit _

lemma dropWhile_head_false {p : Char → Bool} {l t : List Char} {a : Char}
    (h : List.dropWhile p l = a :: t) : p a = false := by
  have hh := List.head?_dropWhile_not p l
  rw [h] at hh
  simpa using hh

lemma rstrip_rstrip (l : List Char) :
    rstrip '.' (rstrip '0' l) =
      ((l.reverse.dropWhile (· == '0')).dropWhile (· == '.')).reverse := by
  unfold rstrip
  rw [List.reverse_reverse]

lemma fmt_pipeline (A B : List Char) (hA : A ≠ [])
    (hAd : ∀ c ∈ A, c.isDigit = true) (hBd : ∀ c ∈ B, c.isDigit = true) :
    rstrip '.' (rstrip '0' (A ++ '.' :: B)) ≠ []
    ∧ (∀ c ∈ rstrip '.' (rstrip '0' (A ++ '.' :: B)), c.isDigit = true ∨ c = '.')
    ∧ (∀ cl, (rstrip '.' (rstrip '0' (A ++ '.' :: B))).getLast? = some cl → cl ≠ '.')
    ∧ ('.' ∈ rstrip '.' (rstrip '0' (A ++ '.' :: B)) →
        ∀ cl, (rstrip '.' (rstrip '0' (A ++ '.' :: B))).getLast? = some cl → cl ≠ '0')
    ∧ (∀ ch, (rstrip '.' (rstrip '0' (A ++ '.' :: B))).head? = some ch → ch.isDigit = true) := by
  obtain ⟨a, A2, hAeq⟩ := List.exists_cons_of_ne_nil hA
  have hrev : (A ++ '.' :: B).reverse = B.reverse ++ '.' :: A.reverse := by
    rw [List.reverse_append, List.reverse_cons, List.append_assoc]
    rfl
  rw [rstrip_rstrip, hrev, List.dropWhile_append]
  by_cases hD : (B.reverse.dropWhile (· == '0')).isEmpty
  · rw [if_pos hD, List.dropWhile_cons_of_neg (by decide), List.dropWhile_cons_of_pos (by decide)]
    have hArne : A.reverse ≠ [] := by simp [hAeq]
    obtain ⟨cl, T, habrev⟩ := List.exists_cons_of_ne_nil hArne
    have hclA : cl ∈ A := by
      rw [← List.mem_reverse, habrev]
      exact List.mem_cons_self _ _
    have hcld : cl.isDigit = true := hAd cl hclA
    rw [habrev, List.dropWhile_cons_of_neg
        (by simp only [beq_iff_eq]; exact isDigit_ne_dot hcld), ← habrev,
      List.reverse_reverse]
    refine ⟨hA, fun c hc => Or.inl (hAd c hc), ?_, ?_, ?_⟩
    · intro cl2 hcl2
      rw [← List.head?_reverse, habrev] at hcl2
      simp only [List.head?_cons, Option.some.injEq] at hcl2
      rw [← hcl2]
      exact isDigit_ne_dot hcld
    · intro hdot
      exact absurd (hAd '.' hdot) (by decide)
    · intro ch hch
      rw [hAeq] at hch
      simp only [List.head?_cons, Option.some.injEq] at hch
      rw [← hch]
      exact hAd a (by rw [hAeq]; exact List.mem_cons_self _ _)
  · rw [if_neg hD]
    obtain ⟨d, t, hdt⟩ := List.exists_cons_of_ne_nil
      (fun h => hD (List.isEmpty_iff.mpr h))
    have hd0 : (d == '0') = false := dropWhile_head_false (p := (· == '0')) hdt
    have hdB : d ∈ B := by
      have hsub := (List.dropWhile_sublist (l := B.reverse) (· == '0')).subset
      exact List.mem_reverse.mp (hsub (by rw [hdt]; exact List.mem_cons_self _ _))
    have htB : ∀ c ∈ t, c ∈ B := fun c hc =>
      List.mem_reverse.mp ((List.dropWhile_sublist (l := B.reverse) (· == '0')).subset
        (by rw [hdt]; exact List.mem_cons_of_mem _ hc))
    have hdd : d.isDigit = true := hBd d hdB
    rw [hdt, List.cons_append, List.dropWhile_cons_of_neg
      (by simp only [beq_iff_eq]; exact isDigit_ne_dot hdd), List.reverse_cons]
    have hinner : (t ++ '.' :: A.reverse).reverse = (A ++ ['.']) ++ t.reverse := by
      rw [List.reverse_append, List.reverse_cons, List.reverse_reverse]
    refine ⟨by simp, ?_, ?_, ?_, ?_⟩
    · intro c hc
      rw [List.mem_append] at hc
      rcases hc with hc | hc
      · rw [hinner, List.mem_append, List.mem_append] at hc
        rcases hc with (hc | hc) | hc
        · exact Or.inl (hAd c hc)
        · simp only [List.mem_singleton] at hc
          exact Or.inr hc
        · exact Or.inl (hBd c (htB c (List.mem_reverse.mp hc)))
      · simp only [List.mem_singleton] at hc
        rw [hc]
        exact Or.inl hdd
    · intro cl2 hcl2
      rw [List.getLast?_concat] at hcl2
      simp only [Option.some.injEq] at hcl2
      rw [← hcl2]
      exact isDigit_ne_dot hdd
    · intro _ cl2 hcl2
      rw [List.getLast?_concat] at hcl2
      simp only [Option.some.injEq] at hcl2
      rw [← hcl2]
      exact isDigit_ne_zero_of_beq hd0
    · intro ch hch
      rw [hinner, hAeq] at hch
      simp only [List.cons_append, List.head?_cons, Option.some.injEq] at hch
      rw [← hch]
      exact hAd a (by rw [hAeq]; exact List.mem_cons_self _ _)

lemma fmt_number_data (x : ℚ) :
    (fmt_number x).data = rstrip '.' (rstrip '0'
      (intChars ((⌊x * 10 ^ 10 + 1 / 2⌋).toNat / 10 ^ 10) ++ '.' ::
       fracChars ((⌊x * 10 ^ 10 + 1 / 2⌋).toNat % 10 ^ 10))) := by
  have h := (fmt_pipeline (intChars ((⌊x * 10 ^ 10 + 1 / 2⌋).toNat / 10 ^ 10))
      (fracChars ((⌊x * 10 ^ 10 + 1 / 2⌋).toNat % 10 ^ 10)) (intChars_ne_nil _)
      (fun c hc => intChars_digit hc) (fun c hc => fracChars_digit hc)).1
  unfold fmt_number
  dsimp only
  rw [if_neg (fun hemp => h (List.isEmpty_iff.mp hemp))]

/-- C9: for every non-negative quantity, `fmt_number` yields a decimal
string built only of digits and at most one decimal point (hence no
scientific-notation exponent), non-empty, not ending in a decimal point,
with no trailing zero after a decimal point, and starting with a digit (a
necessary leading zero is never stripped); in particular `1e-7` formats as
`"0.0000001"`, `0` as `"0"` and `1.5` as `"1.5"`. -/
theorem fmt_number_spec (x : ℚ) (hx : 0 ≤ x) :
    ((fmt_number x).data ≠ []
    ∧ (∀ c ∈ (fmt_number x).data, c.isDigit = true ∨ c = '.')
    ∧ 'e' ∉ (fmt_number x).data
    ∧ (∀ cl, (fmt_number x).data.getLast? = some cl → cl ≠ '.')
    ∧ ('.' ∈ (fmt_number x).data →
        ∀ cl, (fmt_number x).data.getLast? = some cl → cl ≠ '0')
    ∧ (∀ ch, (fmt_number x).data.head? = some ch → ch.isDigit = true))
    ∧ fmt_number (1 / 10 ^ 7) = "0.0000001"
    ∧ fmt_number 0 = "0"
    ∧ fmt_number (3 / 2) = "1.5" := by
  have hp := fmt_pipeline (intChars ((⌊x * 10 ^ 10 + 1 / 2⌋).toNat / 10 ^ 10))
    (fracChars ((⌊x * 10 ^ 10 + 1 / 2⌋).toNat % 10 ^ 10)) (intChars_ne_nil _)
    (fun c hc => intChars_digit hc) (fun c hc => fracChars_digit hc)
  rw [fmt_number_data x]
  refine ⟨⟨hp.1, hp.2.1, ?_, hp.2.2.1, hp.2.2.2.1, hp.2.2.2.2⟩, ?_, ?_, ?_⟩
  · intro he
    rcases hp.2.1 'e' he with hd | hd
    · exact absurd hd (by decide)
    · exact absurd hd (by decide)
  · have hn : (⌊(1 / 10 ^ 7 : ℚ) * 10 ^ 10 + 1 / 2⌋) = 1000 := by norm_num
    unfold fmt_number
    dsimp only
    rw [hn]
    decide
  · have hn : (⌊(0 : ℚ) * 10 ^ 10 + 1 / 2⌋) = 0 := by norm_num
    unfold fmt_number
    dsimp only
    rw [hn]
    decide
  · have hn : (⌊(3 / 2 : ℚ) * 10 ^ 10 + 1 / 2⌋) = 15000000000 := by norm_num
    unfold fmt_number
    dsimp only
    rw [hn]
    decide

/-- Witness for `fmt_number_spec` at `x = 3/2`. -/
theorem fmt_number_spec_witness :
    fmt_number (3 / 2) = "1.5" ∧ (fmt_number (3 / 2)).data ≠ [] :=
  ⟨(fmt_number_spec (3 / 2) (by norm_num)).2.2.2,
   (fmt_number_spec (3 / 2) (by norm_num)).1.1⟩



/-- C4: with a non-empty configured secret, authentication fails with 401
exactly when the signal's token (absent read as `""`) does not
string-equal the secret; with an empty configured secret every signal
passes; a failed authentication short-circuits the handler with no state
change and no exchange calls (see also the receiver-only variant). -/
theorem require_token_spec :
    (∀ (secret : String) (data : Payload), secret ≠ "" →
      (require_token secret data = Except.error HErr.badToken ↔ data.token.getD "" ≠ secret))
    ∧ (∀ data : Payload, require_token "" data = Except.ok ())
    ∧ HErr.badToken.status = 401
    ∧ (∀ (cfg : Config) (w : World) (st : SState) (data : Payload),
        require_token cfg.tvToken data = Except.error HErr.badToken →
        handle_webhook cfg w st data = (Except.error HErr.badToken, st, []))
    ∧ (∀ (tv : String) (st : Option Payload) (data : Payload), tv ≠ "" →
        ((handle_webhook_s1 tv st data).1 = Except.error HErr.badToken ↔
          data.token.getD "" ≠ tv)) := by
  refine ⟨?_, ?_, rfl, ?_, ?_⟩
  · intro secret data hsec
    unfold require_token
    by_cases ht : data.token.getD "" ≠ secret
    · rw [if_pos ⟨hsec, ht⟩]
      simp [ht]
    · rw [if_neg (fun hcon => ht hcon.2)]
      simp [ht]
  · intro data
    unfold require_token
    simp
  · intro cfg w st data h
    unfold handle_webhook
    rw [h]
  · intro tv st data htv
    unfold handle_webhook_s1
    by_cases ht : data.token.getD "" ≠ tv
    · rw [if_pos ⟨htv, ht⟩]
      simp [ht]
    · rw [if_neg (fun hcon => ht hcon.2)]
      simp [ht]

/-- C10: when authentication fails, both services return the 401 error and
leave the process-wide state exactly as it was, issuing no exchange
calls: a subsequent `GET /last` still serves the pre-request values. -/
theorem unauthorized_no_state_change (cfg : Config) (w : World) (st : SState) (data : Payload)
    (tv : String) (st1 : Option Payload) (d1 : Payload)
    (h : cfg.tvToken ≠ "") (ht : data.token.getD "" ≠ cfg.tvToken)
    (h1 : tv ≠ "") (ht1 : d1.token.getD "" ≠ tv) :
    handle_webhook cfg w st data = (Except.error HErr.badToken, st, [])
    ∧ handle_webhook_s1 tv st1 d1 = (Except.error HErr.badToken, st1) := by
  constructor
  · have hrt : require_token cfg.tvToken data = Except.error HErr.badToken := by
      unfold require_token
      rw [if_pos ⟨h, ht⟩]
    unfold handle_webhook
    rw [hrt]
  · unfold handle_webhook_s1
    rw [if_pos ⟨h1, ht1⟩]

/-- Witness for `unauthorized_no_state_change` at concrete states and
payloads. -/
theorem unauthorized_no_state_change_witness :
    handle_webhook ⟨"tok", 3, 1/2⟩ wEx ⟨some ⟨none, none, none⟩, none⟩ ⟨some "bad", none, some "LONG"⟩ =
      (Except.error HErr.badToken, ⟨some ⟨none, none, none⟩, none⟩, [])
    ∧ handle_webhook_s1 "tok" none ⟨none, none, none⟩ = (Except.error HErr.badToken, none) :=
  unauthorized_no_state_change ⟨"tok", 3, 1/2⟩ wEx ⟨some ⟨none, none, none⟩, none⟩
    ⟨some "bad", none, some "LONG"⟩ "tok" none ⟨none, none, none⟩
    (by decide) (by decide) (by decide) (by decide)

/-- Witness for `require_token_spec`: a mismatched token against secret
`"s3cret"` is rejected, and the empty secret accepts a token-less
payload. -/
theorem require_token_spec_witness :
    require_token "s3cret" ⟨some "wrong", none, none⟩ = Except.error HErr.badToken
    ∧ require_token "" ⟨none, none, none⟩ = Except.ok () :=
  ⟨(require_token_spec.1 "s3cret" ⟨some "wrong", none, none⟩ (by decide)).mpr (by decide),
   require_token_spec.2.1 ⟨none, none, none⟩⟩

/-- C5 counterexample: an authenticated `"SCALE_IN"` signal in trading
mode yields the Ignored result, but the call trace is not empty — the
margin-mode and leverage configuration calls are issued before the action
is inspected. -/
theorem ignored_action_cex :
    (handle_webhook cfgEx wEx ⟨none, none⟩ ⟨none, none, some "SCALE_IN"⟩).1 = Except.ok Resp.okIgnored
    ∧ (handle_webhook cfgEx wEx ⟨none, none⟩ ⟨none, none, some "SCALE_IN"⟩).2.2 =
        [Call.setMarginMode, Call.setLeverage "APTUSDT" 3]
    ∧ (handle_webhook cfgEx wEx ⟨none, none⟩ ⟨none, none, some "SCALE_IN"⟩).2.2 ≠ [] := by
  refine ⟨by decide, by decide, by decide⟩

/-- C5 (amended): an authenticated trading-mode signal whose uppercased
action is none of the seven recognized names produces the Ignored result
recording the unrecognized action string, succeeds, and issues exactly the
two best-effort configuration calls (set margin mode, set leverage) — no
query, sizing or order calls. -/
theorem ignored_action_spec (cfg : Config) (w : World) (st : SState)
    (tok symOpt : Option String) (act : String)
    (hauth : require_token cfg.tvToken ⟨tok, symOpt, some act⟩ = Except.ok ())
    (hconf : w.configured = true)
    (hact : pyUpper act ∉ (["LONG", "SHORT", "CLOSE", "CLOSE_LONG", "STOP_LONG",
        "STOP_SHORT", "CLOSE_SHORT"] : List String)) :
    handle_webhook cfg w st ⟨tok, symOpt, some act⟩ =
      (Except.ok Resp.okIgnored,
       ⟨some ⟨tok, symOpt, some act⟩,
        some (.ignored ("unknown action: " ++ pyUpper act))⟩,
       [Call.setMarginMode, Call.setLeverage (clean_symbol (symOpt.getD "APTUSDT")) cfg.leverage]) := by
  simp only [List.mem_cons, List.mem_singleton, not_or] at hact
  obtain ⟨hL, hS, hC1, hC2, hC3, hC4, hC5⟩ := hact
  unfold handle_webhook
  rw [hauth]
  dsimp only
  rw [hconf]
  rw [if_neg (by decide)]
  simp only [Option.getD_some]
  unfold handle_core
  rw [if_neg hL, if_neg hS, if_neg (by simp [hC1, hC2, hC3, hC4, hC5])]

lemma ordersOf_append (l1 l2 : List Call) :
    ordersOf (l1 ++ l2) = ordersOf l1 ++ ordersOf l2 := by
  simp [ordersOf, List.filterMap_append]

lemma close_full_position_eq (w : World) (s : String) :
    close_full_position w s =
      (if w.position s = 0 then BybitResult.noPosition
       else BybitResult.orderPlaced ⟨s, if 0 < w.position s then Side.Sell else Side.Buy,
         |w.position s|, fmt_number |w.position s|, true⟩,
       if w.position s = 0 then [Call.getPositions s]
       else [Call.getPositions s, Call.placeOrder ⟨s, if 0 < w.position s then Side.Sell else Side.Buy,
         |w.position s|, fmt_number |w.position s|, true⟩]) := by
  unfold close_full_position place_market
  dsimp only
  split_ifs with h1 h2 <;> rfl

lemma ordersOf_close (w : World) (s : String) :
    ordersOf (close_full_position w s).2 =
      if w.position s = 0 then []
      else [⟨s, if 0 < w.position s then Side.Sell else Side.Buy, |w.position s|,
        fmt_number |w.position s|, true⟩] := by
  rw [close_full_position_eq]
  split_ifs with h1 <;> rfl

lemma handle_core_close (cfg : Config) (w : World) (symbol : String) (a : String)
    (ha : a ∈ (["CLOSE", "CLOSE_LONG", "STOP_LONG", "STOP_SHORT", "CLOSE_SHORT"] : List String)) :
    handle_core cfg w symbol a =
      (Except.ok (.okBybit (close_full_position w symbol).1),
       some (.closeResult a symbol (close_full_position w symbol).1),
       [Call.setMarginMode, Call.setLeverage symbol cfg.leverage] ++ (close_full_position w symbol).2) := by
  rcases hcfp : close_full_position w symbol with ⟨res, cc⟩
  simp only [List.mem_cons, List.not_mem_nil, or_false] at ha
  rcases ha with rfl | rfl | rfl | rfl | rfl <;>
    (unfold handle_core
     rw [if_neg (by decide), if_neg (by decide), if_pos (by decide), hcfp])

lemma handle_webhook_core (cfg : Config) (w : World) (st : SState) (data : Payload)
    (hauth : require_token cfg.tvToken data = Except.ok ()) (hconf : w.configured = true) :
    handle_webhook cfg w st data =
      ((handle_core cfg w (clean_symbol (data.symbol.getD "APTUSDT"))
          (pyUpper (data.action.getD ""))).1,
       ⟨some data,
        match (handle_core cfg w (clean_symbol (data.symbol.getD "APTUSDT"))
          (pyUpper (data.action.getD ""))).2.1 with
        | some x => some x
        | none => st.last_result⟩,
       (handle_core cfg w (clean_symbol (data.symbol.getD "APTUSDT"))
          (pyUpper (data.action.getD ""))).2.2) := by
  unfold handle_webhook
  rw [hauth]
  dsimp only
  rw [hconf, if_neg (by decide)]

/-- C3: each of the five close-family actions behaves exactly like CLOSE
(same HTTP result, same exchange calls): the current position is fully
closed by one reduce-only market order of the absolute current size on the
opposite side, and a zero position yields the successful
"nothing to close" result with no order submitted. -/
theorem close_actions_spec (cfg : Config) (w : World) (st : SState)
    (tok symOpt : Option String) (a : String)
    (ha : a ∈ (["CLOSE", "CLOSE_LONG", "STOP_LONG", "STOP_SHORT", "CLOSE_SHORT"] : List String))
    (hauth : require_token cfg.tvToken ⟨tok, symOpt, some a⟩ = Except.ok ())
    (hconf : w.configured = true) :
    ((handle_webhook cfg w st ⟨tok, symOpt, some a⟩).1 =
      (handle_webhook cfg w st ⟨tok, symOpt, some "CLOSE"⟩).1)
    ∧ ((handle_webhook cfg w st ⟨tok, symOpt, some a⟩).2.2 =
      (handle_webhook cfg w st ⟨tok, symOpt, some "CLOSE"⟩).2.2)
    ∧ (w.position (clean_symbol (symOpt.getD "APTUSDT")) = 0 →
        (handle_webhook cfg w st ⟨tok, symOpt, some a⟩).1 =
          Except.ok (Resp.okBybit BybitResult.noPosition)
        ∧ ordersOf (handle_webhook cfg w st ⟨tok, symOpt, some a⟩).2.2 = [])
    ∧ (w.position (clean_symbol (symOpt.getD "APTUSDT")) ≠ 0 →
        ordersOf (handle_webhook cfg w st ⟨tok, symOpt, some a⟩).2.2 =
          [⟨clean_symbol (symOpt.getD "APTUSDT"),
            if 0 < w.position (clean_symbol (symOpt.getD "APTUSDT")) then Side.Sell else Side.Buy,
            |w.position (clean_symbol (symOpt.getD "APTUSDT"))|,
            fmt_number |w.position (clean_symbol (symOpt.getD "APTUSDT"))|, true⟩]) := by
  have hupper : pyUpper a = a := by
    have ha2 := ha
    simp only [List.mem_cons, List.not_mem_nil, or_false] at ha2
    rcases ha2 with rfl | rfl | rfl | rfl | rfl <;> rfl
  have hauth0 : require_token cfg.tvToken ⟨tok, symOpt, some "CLOSE"⟩ = Except.ok () := hauth
  rw [handle_webhook_core cfg w st _ hauth hconf, handle_webhook_core cfg w st _ hauth0 hconf]
  dsimp only
  simp only [Option.getD_some]
  rw [hupper, show pyUpper "CLOSE" = "CLOSE" from rfl]
  rw [handle_core_close cfg w _ a ha, handle_core_close cfg w _ "CLOSE" (by decide)]
  dsimp only
  refine ⟨rfl, rfl, ?_, ?_⟩
  · intro h0
    constructor
    · rw [close_full_position_eq]
      dsimp only
      rw [if_pos h0]
    · rw [ordersOf_append]
      rw [show ordersOf [Call.setMarginMode, Call.setLeverage (clean_symbol (symOpt.getD "APTUSDT")) cfg.leverage] = [] from rfl]
      rw [ordersOf_close, if_pos h0]
      rfl
  · intro h0
    rw [ordersOf_append]
    rw [show ordersOf [Call.setMarginMode, Call.setLeverage (clean_symbol (symOpt.getD "APTUSDT")) cfg.leverage] = [] from rfl]
    rw [ordersOf_close, if_neg h0]
    rfl

lemma ordersOf_cons_other (c : Call) (l : List Call) (h : c.orderOf = none) :
    ordersOf (c :: l) = ordersOf l := by
  simp [ordersOf, List.filterMap_cons, h]

lemma ordersOf_calc_qty (cfg : Config) (w : World) (s : String) :
    ordersOf (calc_qty cfg w s).2 = [] := by
  unfold calc_qty
  dsimp only
  by_cases hc : w.equity ≤ 0 ∨ w.price s ≤ 0
  · rw [if_pos hc]
    rfl
  · rw [if_neg hc]
    rcases hr : bybit_get_qty_rules w s with e | ⟨mn, mx, stp⟩
    · rfl
    · dsimp only
      split_ifs <;> rfl

lemma handle_core_long (cfg : Config) (w : World) (symbol : String) (q : ℚ)
    (hq : (calc_qty cfg w symbol).1 = Except.ok q) :
    (handle_core cfg w symbol "LONG").1 =
      Except.ok (Resp.okBybit (BybitResult.orderPlaced ⟨symbol, Side.Buy, q, fmt_number q, false⟩))
    ∧ ordersOf (handle_core cfg w symbol "LONG").2.2 =
        (if w.position symbol < 0 then ordersOf (close_full_position w symbol).2 else [])
          ++ [⟨symbol, Side.Buy, q, fmt_number q, false⟩] := by
  unfold handle_core
  rw [if_pos rfl]
  dsimp only [place_market]
  rw [hq]
  dsimp only
  refine ⟨rfl, ?_⟩
  by_cases hp : w.position symbol < 0
  · rw [if_pos hp, if_pos hp, ordersOf_append, ordersOf_append, ordersOf_append,
      show ordersOf [Call.setMarginMode, Call.setLeverage symbol cfg.leverage] = [] from rfl,
      ordersOf_cons_other (Call.getPositions symbol) _ rfl, ordersOf_calc_qty]
    simp [ordersOf, List.filterMap_cons, Call.orderOf]
  · rw [if_neg hp, if_neg hp, ordersOf_append, ordersOf_append, ordersOf_append,
      show ordersOf [Call.setMarginMode, Call.setLeverage symbol cfg.leverage] = [] from rfl,
      ordersOf_cons_other (Call.getPositions symbol) _ rfl, ordersOf_calc_qty]
    simp [ordersOf, List.filterMap_cons, Call.orderOf]

lemma handle_core_short (cfg : Config) (w : World) (symbol : String) (q : ℚ)
    (hq : (calc_qty cfg w symbol).1 = Except.ok q) :
    (handle_core cfg w symbol "SHORT").1 =
      Except.ok (Resp.okBybit (BybitResult.orderPlaced ⟨symbol, Side.Sell, q, fmt_number q, false⟩))
    ∧ ordersOf (handle_core cfg w symbol "SHORT").2.2 =
        (if 0 < w.position symbol then ordersOf (close_full_position w symbol).2 else [])
          ++ [⟨symbol, Side.Sell, q, fmt_number q, false⟩] := by
  unfold handle_core
  rw [if_neg (by decide), if_pos rfl]
  dsimp only [place_market]
  rw [hq]
  dsimp only
  refine ⟨rfl, ?_⟩
  by_cases hp : 0 < w.position symbol
  · rw [if_pos hp, if_pos hp, ordersOf_append, ordersOf_append, ordersOf_append,
      show ordersOf [Call.setMarginMode, Call.setLeverage symbol cfg.leverage] = [] from rfl,
      ordersOf_cons_other (Call.getPositions symbol) _ rfl, ordersOf_calc_qty]
    simp [ordersOf, List.filterMap_cons, Call.orderOf]
  · rw [if_neg hp, if_neg hp, ordersOf_append, ordersOf_append, ordersOf_append,
      show ordersOf [Call.setMarginMode, Call.setLeverage symbol cfg.leverage] = [] from rfl,
      ordersOf_cons_other (Call.getPositions symbol) _ rfl, ordersOf_calc_qty]
    simp [ordersOf, List.filterMap_cons, Call.orderOf]

/-- C2: on a LONG signal with a negative freshly read position, exactly one
reduce-only Buy market order of the exact absolute position size precedes
the opening order; with position 0 or positive, no closing order is
issued; symmetrically for SHORT against a positive position. -/
theorem reconcile_before_open_spec (cfg : Config) (w : World) (st : SState)
    (tok symOpt : Option String) (q : ℚ)
    (hauth : require_token cfg.tvToken ⟨tok, symOpt, some "LONG"⟩ = Except.ok ())
    (hconf : w.configured = true)
    (hq : (calc_qty cfg w (clean_symbol (symOpt.getD "APTUSDT"))).1 = Except.ok q) :
    (w.position (clean_symbol (symOpt.getD "APTUSDT")) < 0 →
      ordersOf (handle_webhook cfg w st ⟨tok, symOpt, some "LONG"⟩).2.2 =
        [⟨clean_symbol (symOpt.getD "APTUSDT"), Side.Buy,
          |w.position (clean_symbol (symOpt.getD "APTUSDT"))|,
          fmt_number |w.position (clean_symbol (symOpt.getD "APTUSDT"))|, true⟩,
         ⟨clean_symbol (symOpt.getD "APTUSDT"), Side.Buy, q, fmt_number q, false⟩])
    ∧ (0 ≤ w.position (clean_symbol (symOpt.getD "APTUSDT")) →
      ordersOf (handle_webhook cfg w st ⟨tok, symOpt, some "LONG"⟩).2.2 =
        [⟨clean_symbol (symOpt.getD "APTUSDT"), Side.Buy, q, fmt_number q, false⟩])
    ∧ (0 < w.position (clean_symbol (symOpt.getD "APTUSDT")) →
      ordersOf (handle_webhook cfg w st ⟨tok, symOpt, some "SHORT"⟩).2.2 =
        [⟨clean_symbol (symOpt.getD "APTUSDT"), Side.Sell,
          |w.position (clean_symbol (symOpt.getD "APTUSDT"))|,
          fmt_number |w.position (clean_symbol (symOpt.getD "APTUSDT"))|, true⟩,
         ⟨clean_symbol (symOpt.getD "APTUSDT"), Side.Sell, q, fmt_number q, false⟩])
    ∧ (w.position (clean_symbol (symOpt.getD "APTUSDT")) ≤ 0 →
      ordersOf (handle_webhook cfg w st ⟨tok, symOpt, some "SHORT"⟩).2.2 =
        [⟨clean_symbol (symOpt.getD "APTUSDT"), Side.Sell, q, fmt_number q, false⟩]) := by
  have hauthS : require_token cfg.tvToken ⟨tok, symOpt, some "SHORT"⟩ = Except.ok () := hauth
  rw [handle_webhook_core cfg w st _ hauth hconf, handle_webhook_core cfg w st _ hauthS hconf]
  dsimp only
  simp only [Option.getD_some]
  rw [show pyUpper "LONG" = "LONG" from rfl, show pyUpper "SHORT" = "SHORT" from rfl]
  refine ⟨?_, ?_, ?_, ?_⟩
  · intro hp
    rw [(handle_core_long cfg w _ q hq).2, if_pos hp, ordersOf_close,
      if_neg (ne_of_lt hp), if_neg (not_lt.mpr (le_of_lt hp))]
    rfl
  · intro hp
    rw [(handle_core_long cfg w _ q hq).2, if_neg (not_lt.mpr hp)]
    rfl
  · intro hp
    rw [(handle_core_short cfg w _ q hq).2, if_pos hp, ordersOf_close,
      if_neg (ne_of_gt hp), if_pos hp]
    rfl
  · intro hp
    rw [(handle_core_short cfg w _ q hq).2, if_neg (not_lt.mpr hp)]
    rfl


/-- Witness for `reconcile_before_open_spec`: position -5 and desired LONG
yields exactly the closing reduce-only Buy of 5 followed by the opening
Buy of 15. -/
theorem reconcile_before_open_spec_witness :
    ordersOf (handle_webhook cfgEx wNeg ⟨none, none⟩ ⟨none, none, some "LONG"⟩).2.2 =
      [⟨"APTUSDT", Side.Buy, 5, fmt_number 5, true⟩,
       ⟨"APTUSDT", Side.Buy, 15, fmt_number 15, false⟩] := by
  have h := (reconcile_before_open_spec cfgEx wNeg ⟨none, none⟩ none none 15 rfl rfl
    (by norm_num [calc_qty, bybit_get_qty_rules, round_down_to_step, cfgEx, wNeg])).1
    (by norm_num [wNeg])
  have hsym : clean_symbol ((none : Option String).getD "APTUSDT") = "APTUSDT" := by decide
  rw [h, hsym]
  norm_num [wNeg]

/-- Witness for `close_actions_spec`: `STOP_LONG` against a short position
of 5 closes it with one reduce-only Buy of 5 and matches CLOSE. -/
theorem close_actions_spec_witness :
    ordersOf (handle_webhook cfgEx wNeg ⟨none, none⟩ ⟨none, none, some "STOP_LONG"⟩).2.2 =
      [⟨"APTUSDT", Side.Buy, 5, fmt_number 5, true⟩]
    ∧ (handle_webhook cfgEx wNeg ⟨none, none⟩ ⟨none, none, some "STOP_LONG"⟩).1 =
      (handle_webhook cfgEx wNeg ⟨none, none⟩ ⟨none, none, some "CLOSE"⟩).1 := by
  have h := close_actions_spec cfgEx wNeg ⟨none, none⟩ none none "STOP_LONG" (by decide) rfl rfl
  have hsym : clean_symbol ((none : Option String).getD "APTUSDT") = "APTUSDT" := by decide
  refine ⟨?_, h.1⟩
  have h4 := h.2.2.2 (by norm_num [wNeg])
  rw [h4, hsym]
  norm_num [wNeg]

/-- Witness for `ignored_action_spec` on the `"SCALE_IN"` action. -/
theorem ignored_action_spec_witness :
    handle_webhook cfgEx wEx ⟨none, none⟩ ⟨none, none, some "SCALE_IN"⟩ =
      (Except.ok Resp.okIgnored,
       ⟨some ⟨none, none, some "SCALE_IN"⟩,
        some (.ignored ("unknown action: " ++ pyUpper "SCALE_IN"))⟩,
       [Call.setMarginMode,
        Call.setLeverage (clean_symbol ((none : Option String).getD "APTUSDT")) cfgEx.leverage]) :=
  ignored_action_spec cfgEx wEx ⟨none, none⟩ none none "SCALE_IN" rfl rfl (by decide)

/-- C6 (amended): a signal lacking the symbol field is not rejected — it is
processed exactly as if the symbol were the hard-coded substitute
`"APTUSDT"`: same HTTP result, same exchange calls, same recorded
last-result (only the cached last-payload differs). -/
theorem missing_symbol_default (cfg : Config) (w : World) (st : SState)
    (tok act : Option String) :
    ((handle_webhook cfg w st ⟨tok, none, act⟩).1 =
      (handle_webhook cfg w st ⟨tok, some "APTUSDT", act⟩).1)
    ∧ ((handle_webhook cfg w st ⟨tok, none, act⟩).2.2 =
      (handle_webhook cfg w st ⟨tok, some "APTUSDT", act⟩).2.2)
    ∧ ((handle_webhook cfg w st ⟨tok, none, act⟩).2.1.last_result =
      (handle_webhook cfg w st ⟨tok, some "APTUSDT", act⟩).2.1.last_result) := by
  rcases hrt : require_token cfg.tvToken (⟨tok, none, act⟩ : Payload) with e | u
  · have hrt2 : require_token cfg.tvToken (⟨tok, some "APTUSDT", act⟩ : Payload) =
      Except.error e := hrt
    unfold handle_webhook
    rw [hrt, hrt2]
    exact ⟨rfl, rfl, rfl⟩
  · have hrt1 : require_token cfg.tvToken (⟨tok, none, act⟩ : Payload) = Except.ok () := hrt
    have hrt2 : require_token cfg.tvToken (⟨tok, some "APTUSDT", act⟩ : Payload) =
      Except.ok () := hrt
    by_cases hcf : w.configured = true
    · rw [handle_webhook_core cfg w st _ hrt1 hcf, handle_webhook_core cfg w st _ hrt2 hcf]
      exact ⟨rfl, rfl, rfl⟩
    · have hcf' : w.configured = false := by
        revert hcf
        cases w.configured <;> simp
      unfold handle_webhook
      rw [hrt1, hrt2]
      dsimp only
      rw [hcf']
      exact ⟨rfl, rfl, rfl⟩

/-- C6 counterexample: in trading mode, an authenticated LONG signal with
no symbol field succeeds with an order on the substitute symbol
`"APTUSDT"` instead of failing with a 400 validation error. -/
theorem missing_symbol_cex :
    (handle_webhook cfgEx wEx ⟨none, none⟩ ⟨none, none, some "LONG"⟩).1 =
      Except.ok (Resp.okBybit (BybitResult.orderPlaced
        ⟨"APTUSDT", Side.Buy, 15, fmt_number 15, false⟩)) := by
  have hsym : clean_symbol ((none : Option String).getD "APTUSDT") = "APTUSDT" := by decide
  have hq : (calc_qty cfgEx wEx (clean_symbol ((none : Option String).getD "APTUSDT"))).1 =
      Except.ok 15 := by
    norm_num [calc_qty, bybit_get_qty_rules, round_down_to_step, cfgEx, wEx]
  rw [handle_webhook_core cfgEx wEx _ _ rfl rfl]
  dsimp only
  rw [show pyUpper ((some "LONG").getD "") = "LONG" from rfl]
  rw [(handle_core_long cfgEx wEx _ 15 hq).1, hsym]

end TvBridge

